import Mathlib

/-!
Verification of the G2 `Element` reconciliation / multi-state style engine and
of the shape style utilities, shallowly embedded from:

  * `src/geometry/element/index.ts`
  * `src/geometry/shape/util/get-style.ts`

JavaScript objects holding scalar attribute values are modeled as ordered
association lists (insertion ordered, at most one entry per key); JavaScript
numbers occurring on the modeled code paths are integers.  Code that can throw
a `TypeError` (dereferencing `undefined`) is modeled in `Except String`.
Scene-graph side effects that are invisible in the modeled state (raising or
lowering a shape, event emission, the animation driver, scratch-shape
disposal) are recorded in an ordered `Effect` trace.
-/

namespace G2

/-- A JavaScript scalar attribute value (`null` included; an *absent* value,
i.e. `undefined`, is modeled as `Option.none` at the use sites). -/
inductive JVal where
  | str : String → JVal
  | num : Int → JVal
  | boolean : Bool → JVal
  | jnull : JVal
  deriving DecidableEq, Repr

/-- JavaScript truthiness of a scalar value. -/
def JVal.truthy : JVal → Bool
  | .str s => s ≠ ""
  | .num n => n ≠ 0
  | .boolean b => b
  | .jnull => false

/-- `isNil` (@antv/util) on a present value: true exactly for `null`. -/
def JVal.isNil : JVal → Bool
  | .jnull => true
  | _ => false

/-- An attribute object: insertion ordered, at most one entry per key. -/
abbrev AttrMap := List (String × JVal)

/-- Property read `obj[k]`. -/
def getAttr : AttrMap → String → Option JVal
  | [], _ => none
  | p :: rest, k => if p.1 = k then some p.2 else getAttr rest k

/-- Property write `obj[k] = v`: JavaScript keeps the position of an existing
key and appends a fresh key at the end. -/
def setAttr : AttrMap → String → JVal → AttrMap
  | [], k, v => [(k, v)]
  | p :: rest, k, v => if p.1 = k then (k, v) :: rest else p :: setAttr rest k v

/-- Assigning `undefined` to an attribute: the attribute is no longer set, so
it leaves the modeled attribute set. -/
def removeAttr (m : AttrMap) (k : String) : AttrMap :=
  m.filter (fun p => p.1 ≠ k)

/-- Object spread `\x7b...a, ...b\x7d`: the entries of `b` assigned over `a`. -/
def mergeAttrs (a b : AttrMap) : AttrMap :=
  b.foldl (fun acc kv => setAttr acc kv.1 kv.2) a

/-- Truthiness of a possibly-undefined value. -/
def optTruthy (o : Option JVal) : Bool :=
  match o with
  | some v => v.truthy
  | none => false

/-- `isNil` (@antv/util): `null` or `undefined`. -/
def optIsNil (o : Option JVal) : Bool :=
  match o with
  | some v => v.isNil
  | none => true

/-! ### `getStyle` — src/geometry/shape/util/get-style.ts -/

/-- The fields of a `ShapeInfo` that `getStyle` consumes. `style` and
`defaultStyle` may be undefined objects, `color` an undefined or empty string,
`size` an undefined or null number. -/
structure StyleCfg where
  style : Option AttrMap
  defaultStyle : Option AttrMap
  color : Option String
  size : Option JVal
  deriving DecidableEq, Repr

/-- `get(cfg.style, k)`: undefined when the style object itself is undefined. -/
def styleGet (st : Option AttrMap) (k : String) : Option JVal :=
  st.bind (fun m => getAttr m k)

/-- The `if (color)` block of `getStyle`: writes `color` to `stroke` (when
`isStroke`) and/or `fill` (when `isFill`) unless the user `style` already holds
a *truthy* value under that attribute (the source tests `!get(style, 'stroke')`,
i.e. falsiness, not absence). -/
def colorStage (cfg : StyleCfg) (isStroke isFill : Bool) (attrs : AttrMap) : AttrMap :=
  match cfg.color with
  | some color =>
    if color ≠ "" then
      let attrs :=
        if isStroke && !(optTruthy (styleGet cfg.style "stroke")) then
          setAttr attrs "stroke" (.str color)
        else attrs
      let attrs :=
        if isFill && !(optTruthy (styleGet cfg.style "fill")) then
          setAttr attrs "fill" (.str color)
        else attrs
      attrs
    else attrs
  | none => attrs

/-- The trailing `if (sizeName && isNil(get(style, sizeName)) && !isNil(size))`
block of `getStyle`. -/
def sizeStage (cfg : StyleCfg) (sizeName : String) (attrs : AttrMap) : AttrMap :=
  if sizeName ≠ "" && optIsNil (styleGet cfg.style sizeName) && !(optIsNil cfg.size) then
    match cfg.size with
    | some v => setAttr attrs sizeName v
    | none => attrs
  else attrs

/-- `getStyle(cfg, isStroke, isFill, sizeName)` — the Style Resolver.  Builds
`\x7b...defaultStyle, ...style\x7d`, then runs the color block, then the size
block (the three statement blocks of the source function, in order). -/
def getStyle (cfg : StyleCfg) (isStroke isFill : Bool) (sizeName : String) : AttrMap :=
  sizeStage cfg sizeName
    (colorStage cfg isStroke isFill
      (mergeAttrs (cfg.defaultStyle.getD []) (cfg.style.getD [])))

/-! ### Scene-graph model -/

/-- A node of a shape tree: a drawable leaf carrying scalar attributes, or a
group with an ordered list of children.  `name` models the node's `name`
tag (read by `syncShapeStyle` via `sourceShape.get('name')`). -/
inductive GNode where
  | leaf (name : Option String) (attrs : AttrMap) : GNode
  | group (name : Option String) (children : List GNode) : GNode

/-- `shape.attr()` read.  Group-level attributes (transform matrix) are outside
the modeled attribute lattice, so a group reads as empty. -/
def GNode.attrsOf : GNode → AttrMap
  | .leaf _ a => a
  | .group _ _ => []

/-- `shape.attr(styleObj)`: assign each entry of the object over the node's
attributes (meaningful on leaves; group-level attributes are outside the
model). -/
def GNode.attrMerge : GNode → AttrMap → GNode
  | .leaf n a, st => .leaf n (mergeAttrs a st)
  | .group n cs, _ => .group n cs

def GNode.nameOf : GNode → Option String
  | .leaf n _ => n
  | .group n _ => n

def GNode.withName : GNode → Option String → GNode
  | .leaf _ a, n => .leaf n a
  | .group _ cs, n => .group n cs

/-- Truthiness of a possibly-undefined string (`shape.get('name')`). -/
def nameTruthyOpt : Option String → Bool
  | some s => s ≠ ""
  | none => false

/-- A bounding box, as returned by `getCanvasBBox`. -/
structure BBoxM where
  x : Int
  y : Int
  minX : Int
  minY : Int
  maxX : Int
  maxY : Int
  width : Int
  height : Int
  deriving DecidableEq, Repr

/-- A label shape associated with the Element: its visibility flag and its
canvas bounding box (the box itself is computed by the scene graph). -/
structure LabelM where
  visible : Bool
  bbox : BBoxM
  deriving DecidableEq, Repr

/-- The fields of a draw model (`ShapeInfo`) that the Element consumes
directly: `model.shape` (a name, a candidate list, or absent) and
`model.data` (the raw datum).  The style fields are consumed only by the
external Shape Factory. -/
structure ModelM where
  shapeField : Option (String ⊕ List String)
  data : JVal
  deriving DecidableEq, Repr

/-- `getShapeType` (src lines 463–466): `isArray(shape) ? shape[0] : shape`.
Undefined when the model has no shape entry or an empty candidate list. -/
def getShapeType (model : ModelM) : Option String :=
  match model.shapeField with
  | some (Sum.inl s) => some s
  | some (Sum.inr l) => l.head?
  | none => none

/-- The key under which a state style is looked up for one leaf:
`sourceShape.get('name') || index`. -/
inductive StateKey where
  | byName : String → StateKey
  | byIndex : Nat → StateKey
  deriving DecidableEq, Repr

/-- Object property access coerces a numeric key to its decimal string. -/
def StateKey.asStr : StateKey → String
  | .byName s => s
  | .byIndex n => toString n

/-- `sourceShape.get('name') || index` (src line 436): a falsy name (absent or
empty) falls back to the positional index. -/
def leafStateKey (name : Option String) (index : Nat) : StateKey :=
  match name with
  | some s => if s ≠ "" then .byName s else .byIndex index
  | none => .byIndex index

/-- The `animate` entry of a merged state configuration: absent, the explicit
`null` (which `syncShapeStyle` tests with `stateAnimate === null`), or a
configuration value. -/
inductive StateAnimVal where
  | undef
  | nullv
  | cfg (c : AttrMap)
  deriving DecidableEq, Repr

/-- The `style` entry of a merged state configuration: absent, a flat
attribute object, a map of per-shape-key attribute objects (for multi-shape
elements), or a style-computing function.  A function takes the Element and
returns an attribute object; it is embedded extensionally by the object it
returns for this Element. -/
inductive StateStyleVal where
  | undef
  | attrsv (m : AttrMap)
  | byKey (m : List (String × AttrMap))
  | fnv (returned : AttrMap)
  deriving DecidableEq, Repr

/-- A merged state configuration, i.e. the value of
`deepMix(\x7b\x7d, get(theme, [shapeType, stateName], \x7b\x7d), stateOption)`
in `getStateStyle`.  `theme` and `geometry.stateOption` are configuration data
external to the Element; the model takes their deep merge as its input
(no claim concerns the precedence between the two sources). -/
structure StateCfgM where
  animate : StateAnimVal
  style : StateStyleVal
  deriving DecidableEq, Repr

/-- The per-kind entry of a user animate configuration object: `false`/`null`
(explicitly disabled) or a configuration object. -/
inductive AnimKindVal where
  | off
  | cfg (c : AttrMap)
  deriving DecidableEq, Repr

/-- `geometry.animateOption`: `false`, the plain `true`, or an object of
per-kind entries. -/
inductive AnimateOption where
  | off
  | onDefault
  | cfgMap (m : List (String × AnimKindVal))
  deriving DecidableEq, Repr

/-- JavaScript truthiness of the animate option (`false` is falsy; `true` and
every object — the empty one included — are truthy). -/
def AnimateOption.truthy : AnimateOption → Bool
  | .off => false
  | _ => true

/-- The observable side effects of an Element operation, in program order. -/
inductive Effect where
  | toFront
  | toBack
  | scratchDraw
  | removeScratch
  | removeShape
  | doAnim (toAttrs : List (String × Option JVal))
  | stopAnim
  | tween (toAttrs : List (String × Option JVal))
  | stateLookup (state : String) (key : StateKey)
  | statechange (state : String) (status : Bool)
  | propagate (state : String) (status : Bool)
  deriving DecidableEq, Repr

/-- The external Shape Factory: `drawShape(shapeTypeName, model, container)`
may legitimately return nothing for user-defined shapes; `geometryType` is the
descriptor written to an unnamed root shape.  The `coordinate` descriptor is
passed opaquely to the Animation Driver and has no modeled content. -/
structure ShapeFactoryM where
  drawShape : Option String → ModelM → Option GNode
  geometryType : String

/-- The Element's construction context: the Shape Factory, the geometry's
ambient animate option, the merged per-state configuration lookup (keyed by
shape type and state name, see `StateCfgM`), and the built-in default
animation configuration `getDefaultAnimateCfg(geometryType, coordinate, ·)`
(src/animate, external to the Element; a pure lookup table taken as input). -/
structure GeomCtx where
  factory : ShapeFactoryM
  animateOption : AnimateOption
  stateCfgOf : Option String → String → StateCfgM
  defaultAnimCfg : String → AttrMap

/-- The mutable state of one Element.  `shapeVisible` models the owned shape's
visibility flag, `shapeAttached` its membership in the container (cleared by
`shape.remove(true)`), `shapeBBox` the value of `shape.getCanvasBBox()`.
The scene-graph tag store (`origin` / `data` / `element` back-references,
`inheritNames`) carries object references used for event delegation; no claim
observes it and it is outside the modeled state. -/
structure ElementM where
  shape : Option GNode
  shapeVisible : Bool
  shapeAttached : Bool
  shapeBBox : BBoxM
  labelShape : Option (List LabelM)
  states : List String
  visible : Bool
  model : ModelM
  data : JVal
  shapeType : Option String
  destroyed : Bool

/-! ### Element operations — src/geometry/element/index.ts -/

/-- `getAnimateCfg` (src lines 345–366).  Returns `null` (here `none`) when the
user switched animation off, when the plain `true` meets an empty built-in
default, or when the user set this kind to `false`/`null`; otherwise the spread
`\x7b...defaultCfg, ...animate[animateType]\x7d` — which is a (truthy) empty
object when a user configuration object has no entry for this kind and the
default is empty. -/
def getAnimateCfg (ctx : GeomCtx) (animateType : String) : Option AttrMap :=
  let defaultCfg := ctx.defaultAnimCfg animateType
  match ctx.animateOption with
  | .off => none
  | .onDefault => if defaultCfg.isEmpty then none else some defaultCfg
  | .cfgMap m =>
    match m.lookup animateType with
    | some .off => none
    | some (.cfg c) => some (mergeAttrs defaultCfg c)
    | none => some defaultCfg

/-- `getStateStyle` (src lines 324–342) on the merged configuration (see
`StateCfgM`): `get(stateCfg.style, [shapeKey])` selects a per-shape sub-object
when one is present; otherwise the whole style value is used — a flat object
directly, a function by its returned object.  Two degenerate corners fall
outside the scalar attribute model and resolve to the empty style: a flat
object whose entry under the shape key is a truthy *scalar* (the scalar would
be passed to `attr`, which reads instead of writing), and a per-key map with no
entry for this key (the whole map would be stored as object-valued
attributes). -/
def getStateStyle (ctx : GeomCtx) (shapeType : Option String) (stateName : String)
    (shapeKey : StateKey) : StateAnimVal × AttrMap :=
  let stateCfg := ctx.stateCfgOf shapeType stateName
  let shapeStyle : AttrMap :=
    match stateCfg.style with
    | .undef => []
    | .attrsv m =>
      match getAttr m shapeKey.asStr with
      | some v => if v.truthy then [] else m
      | none => m
    | .byKey m =>
      match m.lookup shapeKey.asStr with
      | some sub => sub
      | none => []
    | .fnv r => r
  (stateCfg.animate, shapeStyle)

/-- Modelled from the spec: `getReplaceAttrs(sourceShape, targetShape)` lives
in src/util/graphics.ts, which is not included under src/.  Spec §4.4(b): the
delta turning the source leaf into the target leaf "must include removal/reset
of any attribute present on source but absent on target, not merely additive
changes".  The delta holds the target's attributes plus an `undefined` entry
for every source-only key. -/
def getReplaceAttrs (source target : AttrMap) : List (String × Option JVal) :=
  target.map (fun kv => (kv.1, some kv.2))
    ++ (source.filter (fun kv => (getAttr target kv.1).isNone)).map
        (fun kv => (kv.1, (none : Option JVal)))

/-- `shape.attr(newAttrs)` with a delta: assigns each defined entry and clears
each `undefined` entry. -/
def applyDelta (m : AttrMap) (d : List (String × Option JVal)) : AttrMap :=
  d.foldl (fun acc kv =>
    match kv.2 with
    | some v => setAttr acc kv.1 v
    | none => removeAttr acc kv.1) m

mutual
/-- `syncShapeStyle(sourceShape, targetShape, state, animateCfg, index)`
(src lines 420–461).  Returns the updated source tree, the updated target tree
(`targetShape.attr(style)` mutates the shared offscreen shape) and the effect
trace.  A group recurses pairwise over children in positional order, passing
`index + i`; a missing target child is a `TypeError` at its first use
(structural mismatch is an unchecked precondition, spec §4.4/§7).  A leaf
resolves the state style (when a state is given), applies it onto the target,
computes the replace delta, and then: hands the delta to the Animation Driver
(`doAnimate`) when `animateCfg` is given; applies it synchronously when the
state explicitly disabled animation (`stateAnimate === null`); otherwise, when
the ambient animate option is truthy, stops any in-flight tween and starts a
fixed 300 ms tween to the delta (recorded as an effect; the synchronous
attribute state is unchanged); otherwise applies it synchronously. -/
def syncShapeStyle (ctx : GeomCtx) (shapeType : Option String)
    (sourceShape targetShape : GNode) (state : String) (animateCfg : Option AttrMap)
    (index : Nat) : Except String (GNode × GNode × List Effect) :=
  match sourceShape with
  | .group gname children =>
    match targetShape with
    | .leaf tn ta =>
      if children.isEmpty then .ok (.group gname children, .leaf tn ta, [])
      else .error "TypeError: cannot index children of undefined"
    | .group tname tl =>
      match syncChildren ctx shapeType children tl state animateCfg index 0 with
      | .error e => .error e
      | .ok (cs2, tl2, effs) => .ok (.group gname cs2, .group tname tl2, effs)
  | .leaf lname attrs =>
    let shapeKey := leafStateKey lname index
    let stateRes : Option (StateAnimVal × AttrMap) :=
      if state ≠ "" then some (getStateStyle ctx shapeType state shapeKey) else none
    let target1 : GNode :=
      match stateRes with
      | some r => targetShape.attrMerge r.2
      | none => targetShape
    let lookupEffs : List Effect :=
      match stateRes with
      | some _ => [.stateLookup state shapeKey]
      | none => []
    let newAttrs := getReplaceAttrs attrs target1.attrsOf
    match animateCfg with
    | some _ => .ok (.leaf lname attrs, target1, lookupEffs ++ [.doAnim newAttrs])
    | none =>
      if (stateRes.map (fun r => r.1)) = some .nullv then
        .ok (.leaf lname (applyDelta attrs newAttrs), target1, lookupEffs)
      else if ctx.animateOption.truthy then
        .ok (.leaf lname attrs, target1, lookupEffs ++ [.stopAnim, .tween newAttrs])
      else
        .ok (.leaf lname (applyDelta attrs newAttrs), target1, lookupEffs)

/-- The child loop of `syncShapeStyle`: `for (i …) sync(children[i],
newChildren[i], state, animateCfg, index + i)`.  Threads the target child list
because each recursive call mutates the target child in place. -/
def syncChildren (ctx : GeomCtx) (shapeType : Option String)
    (cs tl : List GNode) (state : String) (animateCfg : Option AttrMap)
    (index i : Nat) : Except String (List GNode × List GNode × List Effect) :=
  match cs with
  | [] => .ok ([], tl, [])
  | c :: rest =>
    match tl.get? i with
    | none => .error "TypeError: target child is undefined"
    | some tc =>
      match syncShapeStyle ctx shapeType c tc state animateCfg (index + i) with
      | .error e => .error e
      | .ok (c2, tc2, e1) =>
        match syncChildren ctx shapeType rest (tl.set i tc2) state animateCfg index (i + 1) with
        | .error e => .error e
        | .ok (rest2, tl2, e2) => .ok (c2 :: rest2, tl2, e1 ++ e2)
end

/-- `states.forEach((state) => this.syncShapeStyle(shape, offscreenShape,
state, null))` (src lines 220–222): each pass mutates both the live shape and
the shared offscreen target, so a later state's style layers on top of the
previous pass. -/
def foldStateSync (ctx : GeomCtx) (shapeType : Option String) :
    List String → GNode → GNode → Except String (GNode × GNode × List Effect)
  | [], s, t => .ok (s, t, [])
  | st :: rest, s, t =>
    match syncShapeStyle ctx shapeType s t st none 0 with
    | .error e => .error e
    | .ok (s2, t2, e1) =>
      match foldStateSync ctx shapeType rest s2 t2 with
      | .error e => .error e
      | .ok (s3, t3, e2) => .ok (s3, t3, e1 ++ e2)

/-- `drawShape` (src lines 369–395, private; named apart from the factory
method it wraps).  Stores the factory result as the owned shape (possibly
nothing, a legitimate outcome for custom shapes); on success writes the
`name` tag when falsy, and fires the appear/enter animation when configured
(`doAnimate(shape, cfg, \x7bcoordinate, toAttrs: \x7b...shape.attr()\x7d\x7d)`).
The `origin`/`element`/`inheritNames` tag writes are outside the modeled
state. -/
def drawShapeOp (ctx : GeomCtx) (el : ElementM) (model : ModelM) (isUpdate : Bool) :
    ElementM × List Effect :=
  match ctx.factory.drawShape el.shapeType model with
  | none => ({ el with shape := none }, [])
  | some s0 =>
    let s1 := if nameTruthyOpt s0.nameOf then s0 else s0.withName (some ctx.factory.geometryType)
    let animateType := if isUpdate then "enter" else "appear"
    let effs :=
      match getAnimateCfg ctx animateType with
      | some _ => [Effect.doAnim (s1.attrsOf.map (fun kv => (kv.1, some kv.2)))]
      | none => []
    ({ el with shape := some s1, shapeAttached := true, shapeVisible := true }, effs)

/-- `changeVisible` (src lines 147–169).  Modelled from the spec:
`super.changeVisible` (Base, src/base.ts, not included under src/) "toggles a
visibility flag" (§4.3); then the shape and every label shape are shown or
hidden. -/
def changeVisible (el : ElementM) (visible : Bool) : ElementM :=
  let el1 := { el with visible := visible }
  let el2 :=
    match el1.shape with
    | some _ => { el1 with shapeVisible := visible }
    | none => el1
  match el2.labelShape with
  | some labels =>
    { el2 with labelShape := some (labels.map (fun l => { l with visible := visible })) }
  | none => el2

/-- `draw` (src lines 75–87): store model, datum and shape type, draw the
shape, then apply the hide behavior when the element was declared invisible. -/
def draw (ctx : GeomCtx) (el : ElementM) (model : ModelM) (isUpdate : Bool) :
    ElementM × List Effect :=
  let el1 := { el with model := model, data := model.data, shapeType := getShapeType model }
  let res := drawShapeOp ctx el1 model isUpdate
  if res.1.visible = false then (changeVisible res.1 false, res.2) else res

/-- `update` (src lines 93–115).  A shape-less element returns immediately.
Otherwise the model/datum/shape type are replaced, the live shape re-annotated
(tag store), a new shape built against the offscreen group — `newShape.set()`
throws when the factory returned nothing — and the live shape synced against
it with the empty state and the update animation configuration. -/
def update (ctx : GeomCtx) (el : ElementM) (model : ModelM) :
    Except String (ElementM × List Effect) :=
  match el.shape with
  | none => .ok (el, [])
  | some shape =>
    let el1 := { el with model := model, data := model.data, shapeType := getShapeType model }
    match ctx.factory.drawShape el1.shapeType model with
    | none => .error "TypeError: cannot set data on undefined"
    | some newShape =>
      match syncShapeStyle ctx el1.shapeType shape newShape "" (getAnimateCfg ctx "update") 0 with
      | .error e => .error e
      | .ok (shape2, _t2, seffs) =>
        .ok ({ el1 with shape := some shape2 }, Effect.scratchDraw :: seffs)

/-- `setState` (src lines 191–238).  Enabling an enabled state or disabling a
disabled one returns at the membership guard.  Otherwise the membership set is
updated, `active`/`selected` raise or lower the owned shape (a `TypeError` on
a shape-less element), a scratch shape is rebuilt from the current model, the
live shape is synced once per remaining active state in activation order (or
once with the empty state when none remain), the scratch shape is disposed,
and the `statechange` notification is emitted and propagated
(`propagationDelegate`, external @antv/component). -/
def setState (ctx : GeomCtx) (el : ElementM) (stateName : String) (stateStatus : Bool) :
    Except String (ElementM × List Effect) :=
  if stateStatus ∧ el.states.contains stateName then .ok (el, [])
  else if ¬ stateStatus ∧ ¬ el.states.contains stateName then .ok (el, [])
  else
    let states2 := if stateStatus then el.states ++ [stateName] else el.states.erase stateName
    let zres : Except String (List Effect) :=
      if stateName = "active" ∨ stateName = "selected" then
        match el.shape with
        | none => .error "TypeError: cannot raise or lower undefined shape"
        | some _ => .ok [if stateStatus then Effect.toFront else Effect.toBack]
      else .ok []
    match zres with
    | .error e => .error e
    | .ok zeffs =>
      let offscreen := ctx.factory.drawShape el.shapeType el.model
      match el.shape with
      | none => .error "TypeError: sourceShape is undefined"
      | some shape =>
        match offscreen with
        | none => .error "TypeError: offscreen shape is undefined"
        | some target =>
          let syncRes :=
            if states2.isEmpty then
              syncShapeStyle ctx el.shapeType shape target "" none 0
            else
              foldStateSync ctx el.shapeType states2 shape target
          match syncRes with
          | .error e => .error e
          | .ok (shape2, _t2, seffs) =>
            .ok ({ el with states := states2, shape := some shape2 },
              zeffs ++ [Effect.scratchDraw] ++ seffs
                ++ [Effect.removeScratch, Effect.statechange stateName stateStatus,
                    Effect.propagate stateName stateStatus])

/-- The iteration of `clearStates` (src lines 246–248): `each` (@antv/util)
captures the array length before the loop and reads `states[i]` from the live
array, which `setState(·, false)` splices in place; a read past the current
end yields `undefined`, and `setState(undefined, false)` returns at the
membership guard (modeled as a skip). -/
def clearStatesLoop (ctx : GeomCtx) : Nat → Nat → ElementM →
    Except String (ElementM × List Effect)
  | 0, _, el => .ok (el, [])
  | fuel + 1, i, el =>
    match el.states.get? i with
    | none => clearStatesLoop ctx fuel (i + 1) el
    | some s =>
      match setState ctx el s false with
      | .error e => .error e
      | .ok (el2, e1) =>
        match clearStatesLoop ctx fuel (i + 1) el2 with
        | .error e => .error e
        | .ok (el3, e2) => .ok (el3, e1 ++ e2)

/-- `clearStates` (src lines 243–251): run the `each` loop over the captured
length, then assign a fresh empty array to `this.states`. -/
def clearStates (ctx : GeomCtx) (el : ElementM) : Except String (ElementM × List Effect) :=
  match clearStatesLoop ctx el.states.length 0 el with
  | .error e => .error e
  | .ok (el2, effs) => .ok ({ el2 with states := [] }, effs)

/-- `destroy` (src lines 120–141).  With an owned shape: when a leave
animation is configured, hand the shape to the Animation Driver (the shape
stays attached; dropping it is the driver's asynchronous business); otherwise
`shape.remove(true)` detaches it synchronously.  The state set is cleared
unconditionally.  Modelled from the spec: `super.destroy` (Base, not under
src/) marks the element destroyed. -/
def destroy (ctx : GeomCtx) (el : ElementM) : ElementM × List Effect :=
  let step :=
    match el.shape with
    | none => (el, ([] : List Effect))
    | some shape =>
      match getAnimateCfg ctx "leave" with
      | some _ =>
        (el, [Effect.doAnim (shape.attrsOf.map (fun kv : String × JVal => (kv.1, some kv.2)))])
      | none => ({ el with shapeAttached := false }, [Effect.removeShape])
  ({ step.1 with states := [], destroyed := true }, step.2)

/-- The loop body of `getBBox` (src lines 306–314): fold one label's canvas
box into the accumulator (`Math.min`/`Math.max` per field). -/
def bboxStep (b : BBoxM) (l : LabelM) : BBoxM :=
  { b with
    x := min l.bbox.x b.x
    y := min l.bbox.y b.y
    minX := min l.bbox.minX b.minX
    minY := min l.bbox.minY b.minY
    maxX := max l.bbox.maxX b.maxX
    maxY := max l.bbox.maxY b.maxY }

/-- `getBBox` (src lines 290–321): start from the zero box, take the shape's
canvas box when a shape is owned, fold in every label box, then recompute
width and height from the extremes. -/
def getBBox (el : ElementM) : BBoxM :=
  let bbox0 : BBoxM := ⟨0, 0, 0, 0, 0, 0, 0, 0⟩
  let bbox1 :=
    match el.shape with
    | some _ => el.shapeBBox
    | none => bbox0
  let bbox2 :=
    match el.labelShape with
    | some labels => labels.foldl bboxStep bbox1
    | none => bbox1
  { bbox2 with width := bbox2.maxX - bbox2.minX, height := bbox2.maxY - bbox2.minY }

/-- `hasState` (src lines 258–260). -/
def hasState (el : ElementM) (stateName : String) : Bool :=
  el.states.contains stateName

/-- `getStates` (src lines 266–268). -/
def getStates (el : ElementM) : List String :=
  el.states

/-- `getData` (src lines 274–276). -/
def getData (el : ElementM) : JVal :=
  el.data

/-- `getModel` (src lines 282–284). -/
def getModel (el : ElementM) : ModelM :=
  el.model

/-! ### Observation helpers and spec-side key functions -/

/-- Whether an operation completed without throwing. -/
def isOkE {α : Type} : Except String α → Bool
  | .ok _ => true
  | .error _ => false

/-- The sequence of state-style lookup keys recorded in an effect trace. -/
def keysOf (effs : List Effect) : List StateKey :=
  effs.filterMap (fun e =>
    match e with
    | .stateLookup _ k => some k
    | _ => none)

mutual
/-- The lookup keys `syncShapeStyle` actually produces, characterized
recursively: a leaf entered with accumulator `index` uses
`name || index`, and child `i` of a group entered with `index` is entered
with `index + i` — the sum of sibling positions along the path from the
root of the sync. -/
def pathKeysNode : GNode → Nat → List StateKey
  | .leaf n _, index => [leafStateKey n index]
  | .group _ cs, index => pathKeysChildren cs index 0

def pathKeysChildren : List GNode → Nat → Nat → List StateKey
  | [], _, _ => []
  | c :: rest, index, i => pathKeysNode c (index + i) ++ pathKeysChildren rest index (i + 1)
end

mutual
/-- The keying claim C3 asserts, written from its words: one integer counter
accumulated across the flattened child-leaf order of the whole tree (never
reset per group), the k-th leaf in flattened order receiving key k; a truthy
declared name still takes precedence (`name || index`).  Returns the keys and
the advanced counter. -/
def claimFlatKeys : GNode → Nat → List StateKey × Nat
  | .leaf n _, k => ([leafStateKey n k], k + 1)
  | .group _ cs, k => claimFlatKeysList cs k

def claimFlatKeysList : List GNode → Nat → List StateKey × Nat
  | [], k => ([], k)
  | c :: rest, k =>
    let r1 := claimFlatKeys c k
    let r2 := claimFlatKeysList rest r1.2
    (r1.1 ++ r2.1, r2.2)
end

/-! ### Concrete fixtures -/

/-- A one-leaf base shape, as a point factory would build it. -/
def baseLeaf : GNode := .leaf none [("fill", .str "base")]

/-- A model for a point shape carrying the datum `1`. -/
def baseModel : ModelM := ⟨some (Sum.inl "point"), .num 1⟩

/-- A factory that always builds `baseLeaf`. -/
def demoFactory : ShapeFactoryM := ⟨fun _ _ => some baseLeaf, "point"⟩

/-- State configurations: `active` paints red, `selected` paints blue. -/
def demoStateCfg : Option String → String → StateCfgM := fun _ st =>
  if st = "active" then ⟨.undef, .attrsv [("fill", .str "red")]⟩
  else if st = "selected" then ⟨.undef, .attrsv [("fill", .str "blue")]⟩
  else ⟨.undef, .undef⟩

/-- A context with animation globally off and no built-in animation defaults,
so every style application is synchronous. -/
def demoCtx : GeomCtx := ⟨demoFactory, .off, demoStateCfg, fun _ => []⟩

/-- The zero bounding box. -/
def zeroBBox : BBoxM := ⟨0, 0, 0, 0, 0, 0, 0, 0⟩

/-- An element as it stands after a successful first draw of `baseModel`. -/
def demoEl0 : ElementM :=
  ⟨some baseLeaf, true, true, zeroBBox, none, [], true, baseModel, .num 1, some "point", false⟩

/-- An element on which no draw has ever succeeded: it owns no shape. -/
def shapelessEl : ElementM :=
  ⟨none, true, false, zeroBBox, none, [], true, baseModel, .num 1, some "point", false⟩

/-- `demoEl0` after enabling `active` then `selected`. -/
def afterTwoStates : Except String (ElementM × List Effect) :=
  match setState demoCtx demoEl0 "active" true with
  | .error e => .error e
  | .ok (el1, _) => setState demoCtx el1 "selected" true

/-- … and after `clearStates()`. -/
def afterClear : Except String (ElementM × List Effect) :=
  match afterTwoStates with
  | .error e => .error e
  | .ok (el2, _) => clearStates demoCtx el2

/-- A nested tree: a group holding a two-leaf group and then a leaf.  In
flattened leaf order the leaves are numbered 0, 1, 2. -/
def nestedTree : GNode :=
  .group none [.group none [.leaf none [], .leaf none []], .leaf none []]

/-- The result of one state sync of `nestedTree` against a structurally
identical copy of itself. -/
def nestedSync : Except String (GNode × GNode × List Effect) :=
  syncShapeStyle demoCtx (some "point") nestedTree nestedTree "active" none 0

/-- The `.ok` payload of `nestedSync` (it does succeed; the fallback is inert). -/
def nestedOkRes : GNode × GNode × List Effect :=
  match nestedSync with
  | .ok r => r
  | .error _ => (nestedTree, nestedTree, [])

/-- A context whose animate option is a user configuration object with no
per-kind entries, and with empty built-in defaults. -/
def emptyAnimCtx : GeomCtx := ⟨demoFactory, .cfgMap [], demoStateCfg, fun _ => []⟩

/-- A context with a user `update` override over a non-empty built-in
default. -/
def userAnimCtx : GeomCtx :=
  ⟨demoFactory, .cfgMap [("update", .cfg [("duration", .num 500)])], demoStateCfg,
    fun _ => [("easing", .str "linear"), ("duration", .num 300)]⟩

/-- A factory that renders nothing for every model (legal for custom shapes). -/
def noneFactory : ShapeFactoryM := ⟨fun _ _ => none, "point"⟩

/-- A context built over `noneFactory`. -/
def noneCtx : GeomCtx := ⟨noneFactory, .off, demoStateCfg, fun _ => []⟩

/-- `demoEl0` after one `setState('active', true)` call. -/
def demoEl1 : ElementM :=
  ⟨some (.leaf none [("fill", .str "red")]), true, true, zeroBBox, none, ["active"], true,
    baseModel, .num 1, some "point", false⟩

/-- Two label shapes with concrete canvas boxes. -/
def labelA : LabelM := ⟨true, ⟨0, 5, 0, 5, 4, 6, 4, 1⟩⟩

def labelB : LabelM := ⟨true, ⟨3, 1, 3, 1, 20, 8, 17, 7⟩⟩

/-- An element owning a shape with a concrete canvas box and the two labels. -/
def bboxEl : ElementM :=
  ⟨some baseLeaf, true, true, ⟨1, 2, 1, 2, 10, 12, 9, 10⟩, some [labelA, labelB],
    [], true, baseModel, .num 1, some "point", false⟩

/-! ## Theorems -/

theorem getAttr_setAttr_same (m : AttrMap) (k : String) (v : JVal) :
    getAttr (setAttr m k v) k = some v := by
  induction m with
  | nil => simp [setAttr, getAttr]
  | cons p rest ih =>
    by_cases hp : p.1 = k
    · simp [setAttr, getAttr, hp]
    · simp [setAttr, getAttr, hp, ih]

theorem getAttr_setAttr_other (m : AttrMap) (k k' : String) (v : JVal) (hne : k' ≠ k) :
    getAttr (setAttr m k v) k' = getAttr m k' := by
  have hkk : ¬(k = k') := fun h => hne h.symm
  induction m with
  | nil => simp [setAttr, getAttr, hkk]
  | cons p rest ih =>
    by_cases hp : p.1 = k
    · simp [setAttr, getAttr, hp, hkk]
    · simp [setAttr, getAttr, hp, ih]

theorem getAttr_eq_none_of_not_mem (m : AttrMap) (k : String) (h : k ∉ m.map Prod.fst) :
    getAttr m k = none := by
  induction m with
  | nil => rfl
  | cons p rest ih =>
    simp only [List.map_cons, List.mem_cons] at h
    push_neg at h
    simp [getAttr, Ne.symm h.1, ih h.2]

theorem getAttr_mergeAttrs (a b : AttrMap) (k : String)
    (hb : (b.map Prod.fst).Nodup) :
    getAttr (mergeAttrs a b) k = ((getAttr b k).elim (getAttr a k) some) := by
  induction b generalizing a with
  | nil => simp [mergeAttrs, getAttr]
  | cons p rest ih =>
    obtain ⟨pk, pv⟩ := p
    simp only [List.map_cons, List.nodup_cons] at hb
    unfold mergeAttrs at ih ⊢
    simp only [List.foldl]
    rw [ih _ hb.2]
    by_cases hp : pk = k
    · subst hp
      have hrest : getAttr rest pk = none :=
        getAttr_eq_none_of_not_mem rest pk hb.1
      simp [getAttr, hrest, getAttr_setAttr_same]
    · have hne : k ≠ pk := fun h => hp h.symm
      rw [getAttr_setAttr_other a pk k pv hne]
      simp [getAttr, hp]

theorem JVal.isNil_eq_false_of_truthy (v : JVal) (h : v.truthy = true) : v.isNil = false := by
  cases v <;> simp_all [JVal.truthy, JVal.isNil]

theorem getAttr_condSet (a : AttrMap) (kw k : String) (v : JVal) (c : Bool)
    (h : k = kw → c = false) :
    getAttr (if c = true then setAttr a kw v else a) k = getAttr a k := by
  by_cases hc : c = true
  · rw [if_pos hc]
    by_cases hkw : k = kw
    · rw [h hkw] at hc; simp at hc
    · exact getAttr_setAttr_other _ _ _ _ hkw
  · simp [hc]

theorem colorStage_other (cfg : StyleCfg) (isStroke isFill : Bool) (a : AttrMap) (k : String)
    (hs : k = "stroke" → (isStroke && !(optTruthy (styleGet cfg.style "stroke"))) = false)
    (hf : k = "fill" → (isFill && !(optTruthy (styleGet cfg.style "fill"))) = false) :
    getAttr (colorStage cfg isStroke isFill a) k = getAttr a k := by
  unfold colorStage
  cases cfg.color with
  | none => rfl
  | some c =>
    by_cases hc : c ≠ ""
    · simp only [if_pos hc]
      rw [getAttr_condSet _ _ _ _ _ hf, getAttr_condSet _ _ _ _ _ hs]
    · simp [if_neg hc]

theorem sizeStage_other (cfg : StyleCfg) (sizeName : String) (a : AttrMap) (k : String)
    (h : k = sizeName →
      (sizeName ≠ "" && optIsNil (styleGet cfg.style sizeName) && !(optIsNil cfg.size)) = false) :
    getAttr (sizeStage cfg sizeName a) k = getAttr a k := by
  unfold sizeStage
  split
  · rename_i hg
    cases hsz : cfg.size with
    | none => simp [hsz, optIsNil] at hg
    | some w =>
      simp only [hsz]
      by_cases hk : k = sizeName
      · rw [h hk] at hg; simp at hg
      · exact getAttr_setAttr_other _ _ _ _ hk
  · rfl

theorem sizeStage_write (cfg : StyleCfg) (sizeName : String) (a : AttrMap) (w : JVal)
    (h1 : sizeName ≠ "") (h2 : optIsNil (styleGet cfg.style sizeName) = true)
    (h3 : cfg.size = some w) (h4 : w.isNil = false) :
    getAttr (sizeStage cfg sizeName a) sizeName = some w := by
  have hg : (sizeName ≠ "" && optIsNil (styleGet cfg.style sizeName) && !(optIsNil cfg.size)) = true := by
    rw [h2, h3]
    simp [h1, optIsNil, h4]
  unfold sizeStage
  rw [if_pos hg, h3]
  exact getAttr_setAttr_same a sizeName w

theorem getStyle_keeps_truthy (cfg : StyleCfg) (isStroke isFill : Bool) (sizeName : String)
    (hnd : ∀ m, cfg.style = some m → (m.map Prod.fst).Nodup)
    (k : String) (v : JVal) (hk : styleGet cfg.style k = some v) (htr : v.truthy = true) :
    getAttr (getStyle cfg isStroke isFill sizeName) k = some v := by
  obtain ⟨m, hm, hget⟩ : ∃ m, cfg.style = some m ∧ getAttr m k = some v := by
    cases hs : cfg.style with
    | none => simp [styleGet, hs] at hk
    | some m => exact ⟨m, rfl, by simpa [styleGet, hs] using hk⟩
  have hmerge : getAttr (mergeAttrs (cfg.defaultStyle.getD []) (cfg.style.getD [])) k = some v := by
    rw [hm]
    simp only [Option.getD_some]
    rw [getAttr_mergeAttrs _ _ _ (hnd m hm)]
    simp [hget]
  unfold getStyle
  rw [sizeStage_other, colorStage_other]
  · exact hmerge
  · intro h; subst h
    rw [hk]
    simp [optTruthy, htr]
  · intro h; subst h
    rw [hk]
    simp [optTruthy, htr]
  · intro h; subst h
    rw [hk]
    simp [optIsNil, JVal.isNil_eq_false_of_truthy v htr]

theorem getStyle_default_pass (cfg : StyleCfg) (isStroke isFill : Bool) (sizeName : String)
    (hnd : ∀ m, cfg.style = some m → (m.map Prod.fst).Nodup)
    (k : String) (hk : styleGet cfg.style k = none)
    (h1 : k ≠ "stroke") (h2 : k ≠ "fill") (h3 : k ≠ sizeName) :
    getAttr (getStyle cfg isStroke isFill sizeName) k = styleGet cfg.defaultStyle k := by
  have hmerge : getAttr (mergeAttrs (cfg.defaultStyle.getD []) (cfg.style.getD [])) k
      = styleGet cfg.defaultStyle k := by
    have hdef : getAttr (cfg.defaultStyle.getD []) k = styleGet cfg.defaultStyle k := by
      cases hd : cfg.defaultStyle with
      | none => simp [styleGet, getAttr]
      | some dm => simp [styleGet, hd]
    cases hs : cfg.style with
    | none => simpa [mergeAttrs] using hdef
    | some m =>
      have hk2 : getAttr m k = none := by
        rw [hs] at hk
        simpa [styleGet] using hk
      simp only [hs, Option.getD_some]
      rw [getAttr_mergeAttrs _ _ _ (hnd m hs)]
      simp [hk2, hdef]
  unfold getStyle
  rw [sizeStage_other, colorStage_other]
  · exact hmerge
  · intro h; exact absurd h h1
  · intro h; exact absurd h h2
  · intro h; exact absurd h h3

theorem colorStage_writes_stroke (cfg : StyleCfg) (isStroke isFill : Bool) (a : AttrMap)
    (c : String) (hc : cfg.color = some c) (hne : c ≠ "") (hstk : isStroke = true)
    (hnt : optTruthy (styleGet cfg.style "stroke") = false) :
    getAttr (colorStage cfg isStroke isFill a) "stroke" = some (.str c) := by
  unfold colorStage
  simp only [hc]
  rw [if_pos hne]
  rw [getAttr_condSet _ "fill" "stroke" _ _ (fun h => absurd h (by decide))]
  rw [if_pos (by simp [hstk, hnt])]
  exact getAttr_setAttr_same _ _ _

theorem colorStage_writes_fill (cfg : StyleCfg) (isStroke isFill : Bool) (a : AttrMap)
    (c : String) (hc : cfg.color = some c) (hne : c ≠ "") (hfl : isFill = true)
    (hnt : optTruthy (styleGet cfg.style "fill") = false) :
    getAttr (colorStage cfg isStroke isFill a) "fill" = some (.str c) := by
  unfold colorStage
  simp only [hc]
  rw [if_pos hne]
  rw [if_pos (by simp [hfl, hnt])]
  exact getAttr_setAttr_same _ _ _

/-- Claim C10, counterexample: the claim says a user-supplied style attribute
is never overridden by the color shorthand, but a user style that *sets*
`stroke` to the falsy empty string is overridden by `color`. -/
theorem getStyle_overrides_falsy_stroke :
    styleGet (some [("stroke", JVal.str "")]) "stroke" = some (.str "")
    ∧ getAttr
        (getStyle ⟨some [("stroke", .str "")], none, some "red", none⟩ true false "")
        "stroke" = some (.str "red")
    ∧ some (JVal.str "red") ≠ some (JVal.str "") := by
  exact ⟨rfl, rfl, by decide⟩

/-- Claim C10 (amended): `getStyle` gives `cfg.style` precedence over
`cfg.defaultStyle` per field, and the color shorthand is written to `stroke`
(when `isStroke`) or `fill` (when `isFill`) only while the user style holds no
*truthy* value under that attribute — so a truthy user-supplied style
attribute is never overridden (a falsy one, such as the empty string, is);
`cfg.size` is written under `sizeName` only when `sizeName` is non-empty, the
user style holds a nil value under `sizeName`, and `size` is not nil. -/
theorem getStyle_resolution (cfg : StyleCfg) (isStroke isFill : Bool) (sizeName : String)
    (hnd : ∀ m, cfg.style = some m → (m.map Prod.fst).Nodup) :
    (∀ k v, styleGet cfg.style k = some v → v.truthy = true →
        getAttr (getStyle cfg isStroke isFill sizeName) k = some v)
    ∧ (∀ k, styleGet cfg.style k = none → k ≠ "stroke" → k ≠ "fill" → k ≠ sizeName →
        getAttr (getStyle cfg isStroke isFill sizeName) k = styleGet cfg.defaultStyle k)
    ∧ (∀ w, sizeName ≠ "" → optIsNil (styleGet cfg.style sizeName) = true → cfg.size = some w →
        w.isNil = false →
        getAttr (getStyle cfg isStroke isFill sizeName) sizeName = some w)
    ∧ (∀ c, cfg.color = some c → c ≠ "" → isStroke = true →
        optTruthy (styleGet cfg.style "stroke") = false → sizeName ≠ "stroke" →
        getAttr (getStyle cfg isStroke isFill sizeName) "stroke" = some (.str c))
    ∧ (∀ c, cfg.color = some c → c ≠ "" → isFill = true →
        optTruthy (styleGet cfg.style "fill") = false → sizeName ≠ "fill" →
        getAttr (getStyle cfg isStroke isFill sizeName) "fill" = some (.str c)) := by
  refine ⟨fun k v hk htr => getStyle_keeps_truthy cfg isStroke isFill sizeName hnd k v hk htr,
    fun k hk h1 h2 h3 => getStyle_default_pass cfg isStroke isFill sizeName hnd k hk h1 h2 h3,
    fun w h1 h2 h3 h4 => by unfold getStyle; exact sizeStage_write cfg sizeName _ w h1 h2 h3 h4,
    fun c hc hne hstk hnt hsn => ?_, fun c hc hne hfl hnt hsn => ?_⟩
  · unfold getStyle
    rw [sizeStage_other _ _ _ _ (fun h => absurd h.symm hsn)]
    exact colorStage_writes_stroke cfg isStroke isFill _ c hc hne hstk hnt
  · unfold getStyle
    rw [sizeStage_other _ _ _ _ (fun h => absurd h.symm hsn)]
    exact colorStage_writes_fill cfg isStroke isFill _ c hc hne hfl hnt

/-- Witness for `getStyle_resolution`, at a concrete configuration. -/
theorem getStyle_resolution_witness :
    getAttr
        (getStyle ⟨some [("lineDash", .str "solid")], some [("x", .num 1)],
          some "red", some (.num 5)⟩ true true "lineWidth")
        "lineDash" = some (.str "solid")
    ∧ getAttr
        (getStyle ⟨some [("lineDash", .str "solid")], some [("x", .num 1)],
          some "red", some (.num 5)⟩ true true "lineWidth")
        "x" = some (.num 1)
    ∧ getAttr
        (getStyle ⟨some [("lineDash", .str "solid")], some [("x", .num 1)],
          some "red", some (.num 5)⟩ true true "lineWidth")
        "lineWidth" = some (.num 5)
    ∧ getAttr
        (getStyle ⟨some [("lineDash", .str "solid")], some [("x", .num 1)],
          some "red", some (.num 5)⟩ true true "lineWidth")
        "stroke" = some (.str "red")
    ∧ getAttr
        (getStyle ⟨some [("lineDash", .str "solid")], some [("x", .num 1)],
          some "red", some (.num 5)⟩ true true "lineWidth")
        "fill" = some (.str "red") := by
  have hnd : ∀ m, (some [("lineDash", JVal.str "solid")] : Option AttrMap) = some m →
      (m.map Prod.fst).Nodup := by
    intro m hm
    cases hm
    decide
  have H := getStyle_resolution
    ⟨some [("lineDash", .str "solid")], some [("x", .num 1)], some "red", some (.num 5)⟩
    true true "lineWidth" hnd
  exact ⟨H.1 "lineDash" (.str "solid") (by rfl) (by decide),
    H.2.1 "x" (by rfl) (by decide) (by decide) (by decide),
    H.2.2.1 (.num 5) (by decide) (by rfl) (by rfl) (by decide),
    H.2.2.2.1 "red" (by rfl) (by decide) (by rfl) (by rfl) (by decide),
    H.2.2.2.2 "red" (by rfl) (by decide) (by rfl) (by rfl) (by decide)⟩

end G2

namespace G2

/-- Claim C8: `changeVisible(v)` sets the visibility flag and, when the
element owns a shape, shows/hides the shape — and every associated label shape
— while leaving the shape (and so its style attributes), the state set, the
stored model and the datum unchanged. -/
theorem changeVisible_spec (el : ElementM) (v : Bool) :
    (changeVisible el v).visible = v
    ∧ (changeVisible el v).shapeVisible = (if el.shape.isSome then v else el.shapeVisible)
    ∧ (changeVisible el v).labelShape
        = el.labelShape.map (fun labels => labels.map (fun l => { l with visible := v }))
    ∧ (changeVisible el v).shape = el.shape
    ∧ (changeVisible el v).states = el.states
    ∧ (changeVisible el v).model = el.model
    ∧ (changeVisible el v).data = el.data := by
  cases hsh : el.shape <;> cases hl : el.labelShape <;>
    simp [changeVisible, hsh, hl]

/-- Claim C9: `update` on an element that owns a shape dereferences the
scratch shape returned by the Shape Factory unconditionally, so when the
factory returns nothing for the new model the call fails (a `TypeError` on
`newShape.set`) instead of leaving the element unchanged. -/
theorem update_requires_factory_shape (ctx : GeomCtx) (el : ElementM) (m : ModelM) (s : GNode)
    (h1 : el.shape = some s) (h2 : ctx.factory.drawShape (getShapeType m) m = none) :
    isOkE (update ctx el m) = false := by
  simp [update, h1, h2, isOkE]

/-- Witness for `update_requires_factory_shape` at a concrete element and
factory. -/
theorem update_requires_factory_shape_witness :
    demoEl0.shape = some baseLeaf
    ∧ noneCtx.factory.drawShape (getShapeType baseModel) baseModel = none
    ∧ isOkE (update noneCtx demoEl0 baseModel) = false :=
  ⟨rfl, rfl, update_requires_factory_shape noneCtx demoEl0 baseModel baseLeaf rfl rfl⟩

/-- Claim C6: with no configured leave animation, `destroy` removes the owned
shape from its container synchronously (the shape is detached when the call
returns), and the active-state set is cleared by `destroy` in every case. -/
theorem destroy_spec (ctx : GeomCtx) (el : ElementM) :
    ((destroy ctx el).1.states = [])
    ∧ (∀ s, el.shape = some s → getAnimateCfg ctx "leave" = none →
        (destroy ctx el).1.shapeAttached = false
        ∧ (destroy ctx el).2 = [Effect.removeShape]) := by
  constructor
  · simp [destroy]
  · intro s h1 h2
    simp [destroy, h1, h2]

/-- Witness for `destroy_spec` at a concrete element with no leave
animation configured. -/
theorem destroy_spec_witness :
    demoEl0.shape = some baseLeaf
    ∧ getAnimateCfg demoCtx "leave" = none
    ∧ (destroy demoCtx demoEl0).1.states = []
    ∧ (destroy demoCtx demoEl0).1.shapeAttached = false
    ∧ (destroy demoCtx demoEl0).2 = [Effect.removeShape] :=
  ⟨rfl, rfl, (destroy_spec demoCtx demoEl0).1,
    ((destroy_spec demoCtx demoEl0).2 baseLeaf rfl rfl).1,
    ((destroy_spec demoCtx demoEl0).2 baseLeaf rfl rfl).2⟩

/-- Claim C4, counterexample: the ambient switch is on (a user configuration
object — truthy — with no entry for the kind) and no built-in default exists;
the claim predicts no animation, but the resolution returns the empty
configuration, a truthy value the call sites treat as an animation. -/
theorem getAnimateCfg_empty_cfg_counterexample :
    getAnimateCfg emptyAnimCtx "update" = some []
    ∧ AnimateOption.truthy emptyAnimCtx.animateOption = true
    ∧ emptyAnimCtx.defaultAnimCfg "update" = []
    ∧ (some ([] : AttrMap)) ≠ (none : Option AttrMap) := by
  refine ⟨rfl, rfl, rfl, by decide⟩

/-- Claim C4 (amended): resolution returns no animation exactly when the
ambient switch is off, when it is the plain `true` and no built-in default
exists, or when the user explicitly set this kind to off; otherwise it returns
the built-in default for the kind merged with the user's per-kind overrides,
the user's values winning per field — in particular a user configuration
object with no entry for this kind yields the default itself, which is the
truthy empty configuration (not "no animation") when no default exists. -/
theorem getAnimateCfg_resolution (ctx : GeomCtx) (kind : String) :
    (getAnimateCfg ctx kind = none ↔
      (ctx.animateOption = .off
        ∨ (ctx.animateOption = .onDefault ∧ ctx.defaultAnimCfg kind = [])
        ∨ (∃ m, ctx.animateOption = .cfgMap m ∧ m.lookup kind = some .off)))
    ∧ (∀ m c, ctx.animateOption = .cfgMap m → m.lookup kind = some (.cfg c) →
        getAnimateCfg ctx kind = some (mergeAttrs (ctx.defaultAnimCfg kind) c))
    ∧ (∀ m, ctx.animateOption = .cfgMap m → m.lookup kind = none →
        getAnimateCfg ctx kind = some (ctx.defaultAnimCfg kind))
    ∧ (ctx.animateOption = .onDefault → ctx.defaultAnimCfg kind ≠ [] →
        getAnimateCfg ctx kind = some (ctx.defaultAnimCfg kind))
    ∧ (∀ d c k, (c.map Prod.fst).Nodup →
        getAttr (mergeAttrs d c) k = ((getAttr c k).elim (getAttr d k) some)) := by
  refine ⟨?_, ?_, ?_, ?_, fun d c k h => getAttr_mergeAttrs d c k h⟩
  · cases hao : ctx.animateOption with
    | off => simp [getAnimateCfg, hao]
    | onDefault =>
      by_cases hd : (ctx.defaultAnimCfg kind) = []
      · simp [getAnimateCfg, hao, hd]
      · simp [getAnimateCfg, hao, hd, List.isEmpty_iff]
    | cfgMap m =>
      cases hl : m.lookup kind with
      | none => simp [getAnimateCfg, hao, hl]
      | some v =>
        cases v with
        | off => simp [getAnimateCfg, hao, hl]
        | cfg c => simp [getAnimateCfg, hao, hl]
  · intro m c hao hl
    simp [getAnimateCfg, hao, hl]
  · intro m hao hl
    simp [getAnimateCfg, hao, hl]
  · intro hao hd
    simp [getAnimateCfg, hao, List.isEmpty_iff, hd]

/-- Witness for `getAnimateCfg_resolution`: with a user `update` override over
a non-empty default, the resolution is the per-field merge, the user value
winning. -/
theorem getAnimateCfg_resolution_witness :
    getAnimateCfg userAnimCtx "update"
      = some (mergeAttrs [("easing", .str "linear"), ("duration", .num 300)]
          [("duration", .num 500)])
    ∧ mergeAttrs [("easing", JVal.str "linear"), ("duration", JVal.num 300)]
        [("duration", JVal.num 500)]
      = [("easing", .str "linear"), ("duration", .num 500)] :=
  ⟨(getAnimateCfg_resolution userAnimCtx "update").2.1
      [("update", .cfg [("duration", .num 500)])] [("duration", .num 500)] rfl rfl,
    rfl⟩

/-- Claim C1, counterexample: on an element on which draw never succeeded,
enabling a state is not a no-op — the code throws a `TypeError`
(`shape.toFront()` on `undefined` for `active`/`selected`; `sourceShape` inside
the style sync for any other name, after the state set was already mutated and
a scratch shape built). -/
theorem setState_shapeless_counterexample :
    shapelessEl.shape = none
    ∧ isOkE (setState demoCtx shapelessEl "active" true) = false
    ∧ isOkE (setState demoCtx shapelessEl "custom" true) = false :=
  ⟨rfl, rfl, rfl⟩

/-- Claim C1 (amended): on a shape-less element, `update` is a no-op and a
`setState` call rejected by the membership guard (enabling an already-enabled
state, disabling a not-enabled one) is a no-op; every other `setState` call
throws on the absent shape rather than being a no-op. -/
theorem shapeless_noop_boundary (ctx : GeomCtx) (el : ElementM) (m : ModelM)
    (name : String) (status : Bool) (h : el.shape = none) :
    (update ctx el m = .ok (el, []))
    ∧ ((status = true ∧ el.states.contains name = true) ∨
        (status = false ∧ el.states.contains name = false) →
        setState ctx el name status = .ok (el, []))
    ∧ ((status = true ∧ el.states.contains name = false) ∨
        (status = false ∧ el.states.contains name = true) →
        isOkE (setState ctx el name status) = false) := by
  refine ⟨by simp [update, h], ?_, ?_⟩
  · rintro (⟨hs, hc⟩ | ⟨hs, hc⟩) <;> subst hs
    · have hmem : name ∈ el.states := by simpa using hc
      simp [setState, hmem]
    · have hnm : name ∉ el.states := by simpa using hc
      simp [setState, hnm]
  · rintro (⟨hs, hc⟩ | ⟨hs, hc⟩) <;> subst hs
    · have hnm : name ∉ el.states := by simpa using hc
      by_cases hz : name = "active" ∨ name = "selected" <;>
        simp [setState, hnm, hz, h, isOkE]
    · have hmem : name ∈ el.states := by simpa using hc
      by_cases hz : name = "active" ∨ name = "selected" <;>
        simp [setState, hmem, hz, h, isOkE]

/-- Witness for `shapeless_noop_boundary` at a concrete never-drawn element. -/
theorem shapeless_noop_boundary_witness :
    shapelessEl.shape = none
    ∧ update demoCtx shapelessEl baseModel = .ok (shapelessEl, [])
    ∧ isOkE (setState demoCtx shapelessEl "custom" true) = false :=
  ⟨rfl, (shapeless_noop_boundary demoCtx shapelessEl baseModel "custom" true rfl).1,
    (shapeless_noop_boundary demoCtx shapelessEl baseModel "custom" true rfl).2.2
      (Or.inl ⟨rfl, rfl⟩)⟩

/-- Claim C2 (the code violates it): after enabling `active` then `selected`,
`clearStates()` leaves the state set empty, but the leaf keeps the `selected`
state style instead of the base style that a fresh stateless draw produces,
and no `statechange` notification for `selected` is emitted — `each` iterates
the very array that `setState(·, false)` splices in place, so `selected` is
never disabled and the `active`-disabling pass re-applies the `selected`
style. -/
theorem clearStates_keeps_survivor_style :
    (afterClear.map (fun r => (r.1.shape.map GNode.attrsOf, r.1.states)))
      = .ok (some [("fill", JVal.str "blue")], ([] : List String))
    ∧ ((draw demoCtx shapelessEl baseModel false).1.shape.map GNode.attrsOf)
      = some [("fill", JVal.str "base")]
    ∧ (afterClear.map (fun r => r.2.contains (Effect.statechange "selected" false))) = .ok false
    ∧ (afterClear.map (fun r => r.2.contains (Effect.statechange "active" false))) = .ok true
    ∧ ([("fill", JVal.str "blue")] : AttrMap) ≠ [("fill", JVal.str "base")] :=
  ⟨rfl, rfl, rfl, rfl, by decide⟩

end G2

namespace G2

/-- Claim C5: `setState` is idempotent at its no-op boundary — for any
element, enabling an already-enabled state or disabling a not-enabled one
returns immediately with the element unchanged and no effects (so no z-order
change, no `statechange` notification, no scratch build); across two identical
enable calls the state set and z-order change at most once (the second call
produces no effects at all), and `hasState` is true after either call. -/
theorem setState_noop_boundary (ctx : GeomCtx) (el : ElementM) (name : String) :
    (name ∈ el.states → setState ctx el name true = .ok (el, []))
    ∧ (name ∉ el.states → setState ctx el name false = .ok (el, []))
    ∧ (∀ el1 effs1, setState ctx el name true = .ok (el1, effs1) →
        hasState el1 name = true ∧ setState ctx el1 name true = .ok (el1, [])) := by
  have henable : ∀ e : ElementM, name ∈ e.states → setState ctx e name true = .ok (e, []) := by
    intro e hm
    simp [setState, hm]
  refine ⟨henable el, ?_, ?_⟩
  · intro hnm
    simp [setState, hnm]
  · intro el1 effs1 hok
    by_cases hmem : name ∈ el.states
    · rw [henable el hmem] at hok
      have hpair : el = el1 ∧ ([] : List Effect) = effs1 := by simpa using hok
      obtain ⟨rfl, rfl⟩ := hpair
      exact ⟨by simp [hasState, hmem], henable el hmem⟩
    · simp only [setState] at hok
      rw [if_neg (by simp [hmem]), if_neg (by simp)] at hok
      split at hok
      · exact absurd hok (by simp)
      · split at hok
        · exact absurd hok (by simp)
        · split at hok
          · exact absurd hok (by simp)
          · split at hok
            · exact absurd hok (by simp)
            · have hpair := hok
              rw [Except.ok.injEq, Prod.mk.injEq] at hpair
              obtain ⟨hel, -⟩ := hpair
              subst hel
              constructor
              · simp [hasState]
              · apply henable
                simp

/-- Witness for `setState_noop_boundary`: after one concrete enabling call,
the state is set and a second identical call is a no-op. -/
theorem setState_noop_boundary_witness :
    hasState demoEl1 "active" = true
    ∧ setState demoCtx demoEl1 "active" true = .ok (demoEl1, []) :=
  (setState_noop_boundary demoCtx demoEl0 "active").2.2 demoEl1
    [Effect.toFront, Effect.scratchDraw, Effect.stateLookup "active" (.byIndex 0),
      Effect.removeScratch, Effect.statechange "active" true, Effect.propagate "active" true]
    (by rfl)

end G2

namespace G2

theorem foldl_min_le_init (l : List Int) (a : Int) :
    l.foldl (fun acc x => min x acc) a ≤ a := by
  induction l generalizing a with
  | nil => simp
  | cons x rest ih =>
    rw [List.foldl_cons]
    exact le_trans (ih (min x a)) (min_le_right x a)

theorem foldl_min_le_mem (l : List Int) (x : Int) (hx : x ∈ l) : ∀ a : Int,
    l.foldl (fun acc y => min y acc) a ≤ x := by
  induction hx with
  | head as =>
    intro a
    rw [List.foldl_cons]
    exact le_trans (foldl_min_le_init as (min x a)) (min_le_left x a)
  | tail y hmem ih =>
    intro a
    rw [List.foldl_cons]
    exact ih (min y a)

theorem foldl_min_attains (l : List Int) : ∀ a : Int,
    l.foldl (fun acc y => min y acc) a = a ∨ l.foldl (fun acc y => min y acc) a ∈ l := by
  induction l with
  | nil =>
    intro a
    left
    rfl
  | cons y rest ih =>
    intro a
    rw [List.foldl_cons]
    rcases ih (min y a) with h | h
    · rcases min_choice y a with hm | hm
      · right
        rw [h, hm]
        exact List.mem_cons_self y rest
      · left
        rw [h, hm]
    · right
      exact List.mem_cons_of_mem y h

theorem foldl_max_ge_init (l : List Int) (a : Int) :
    a ≤ l.foldl (fun acc x => max x acc) a := by
  induction l generalizing a with
  | nil => simp
  | cons x rest ih =>
    rw [List.foldl_cons]
    exact le_trans (le_max_right x a) (ih (max x a))

theorem foldl_max_ge_mem (l : List Int) (x : Int) (hx : x ∈ l) : ∀ a : Int,
    x ≤ l.foldl (fun acc y => max y acc) a := by
  induction hx with
  | head as =>
    intro a
    rw [List.foldl_cons]
    exact le_trans (le_max_left x a) (foldl_max_ge_init as (max x a))
  | tail y hmem ih =>
    intro a
    rw [List.foldl_cons]
    exact ih (max y a)

theorem foldl_max_attains (l : List Int) : ∀ a : Int,
    l.foldl (fun acc y => max y acc) a = a ∨ l.foldl (fun acc y => max y acc) a ∈ l := by
  induction l with
  | nil =>
    intro a
    left
    rfl
  | cons y rest ih =>
    intro a
    rw [List.foldl_cons]
    rcases ih (max y a) with h | h
    · rcases max_choice y a with hm | hm
      · right
        rw [h, hm]
        exact List.mem_cons_self y rest
      · left
        rw [h, hm]
    · right
      exact List.mem_cons_of_mem y h

theorem foldl_bboxStep_x (ls : List LabelM) (b : BBoxM) :
    (ls.foldl bboxStep b).x
      = (ls.map (fun l => l.bbox.x)).foldl (fun acc y => min y acc) b.x := by
  induction ls generalizing b with
  | nil => rfl
  | cons l rest ih =>
    rw [List.foldl_cons, List.map_cons, List.foldl_cons, ih]
    rfl

theorem foldl_bboxStep_y (ls : List LabelM) (b : BBoxM) :
    (ls.foldl bboxStep b).y
      = (ls.map (fun l => l.bbox.y)).foldl (fun acc y => min y acc) b.y := by
  induction ls generalizing b with
  | nil => rfl
  | cons l rest ih =>
    rw [List.foldl_cons, List.map_cons, List.foldl_cons, ih]
    rfl

theorem foldl_bboxStep_minX (ls : List LabelM) (b : BBoxM) :
    (ls.foldl bboxStep b).minX
      = (ls.map (fun l => l.bbox.minX)).foldl (fun acc y => min y acc) b.minX := by
  induction ls generalizing b with
  | nil => rfl
  | cons l rest ih =>
    rw [List.foldl_cons, List.map_cons, List.foldl_cons, ih]
    rfl

theorem foldl_bboxStep_minY (ls : List LabelM) (b : BBoxM) :
    (ls.foldl bboxStep b).minY
      = (ls.map (fun l => l.bbox.minY)).foldl (fun acc y => min y acc) b.minY := by
  induction ls generalizing b with
  | nil => rfl
  | cons l rest ih =>
    rw [List.foldl_cons, List.map_cons, List.foldl_cons, ih]
    rfl

theorem foldl_bboxStep_maxX (ls : List LabelM) (b : BBoxM) :
    (ls.foldl bboxStep b).maxX
      = (ls.map (fun l => l.bbox.maxX)).foldl (fun acc y => max y acc) b.maxX := by
  induction ls generalizing b with
  | nil => rfl
  | cons l rest ih =>
    rw [List.foldl_cons, List.map_cons, List.foldl_cons, ih]
    rfl

theorem foldl_bboxStep_maxY (ls : List LabelM) (b : BBoxM) :
    (ls.foldl bboxStep b).maxY
      = (ls.map (fun l => l.bbox.maxY)).foldl (fun acc y => max y acc) b.maxY := by
  induction ls generalizing b with
  | nil => rfl
  | cons l rest ih =>
    rw [List.foldl_cons, List.map_cons, List.foldl_cons, ih]
    rfl

/-- Claim C7: for an element owning a shape and a list of label shapes,
`getBBox()` returns the union bounding box of the shape's canvas box and every
label's canvas box — each of `x`/`y`/`minX`/`minY` is a lower bound of, and
attained by, the corresponding member fields, each of `maxX`/`maxY` an upper
bound and attained, `width = maxX - minX`, `height = maxY - minY`. -/
theorem getBBox_union (el : ElementM) (s : GNode) (ls : List LabelM)
    (h1 : el.shape = some s) (h2 : el.labelShape = some ls) :
    ((getBBox el).width = (getBBox el).maxX - (getBBox el).minX)
    ∧ ((getBBox el).height = (getBBox el).maxY - (getBBox el).minY)
    ∧ (∀ b ∈ el.shapeBBox :: ls.map (fun l => l.bbox),
        (getBBox el).x ≤ b.x ∧ (getBBox el).y ≤ b.y
        ∧ (getBBox el).minX ≤ b.minX ∧ (getBBox el).minY ≤ b.minY
        ∧ b.maxX ≤ (getBBox el).maxX ∧ b.maxY ≤ (getBBox el).maxY)
    ∧ ((getBBox el).x ∈ (el.shapeBBox :: ls.map (fun l => l.bbox)).map BBoxM.x)
    ∧ ((getBBox el).y ∈ (el.shapeBBox :: ls.map (fun l => l.bbox)).map BBoxM.y)
    ∧ ((getBBox el).minX ∈ (el.shapeBBox :: ls.map (fun l => l.bbox)).map BBoxM.minX)
    ∧ ((getBBox el).minY ∈ (el.shapeBBox :: ls.map (fun l => l.bbox)).map BBoxM.minY)
    ∧ ((getBBox el).maxX ∈ (el.shapeBBox :: ls.map (fun l => l.bbox)).map BBoxM.maxX)
    ∧ ((getBBox el).maxY ∈ (el.shapeBBox :: ls.map (fun l => l.bbox)).map BBoxM.maxY) := by
  have hx : (getBBox el).x = (ls.foldl bboxStep el.shapeBBox).x := by
    simp [getBBox, h1, h2]
  have hy : (getBBox el).y = (ls.foldl bboxStep el.shapeBBox).y := by
    simp [getBBox, h1, h2]
  have hminX : (getBBox el).minX = (ls.foldl bboxStep el.shapeBBox).minX := by
    simp [getBBox, h1, h2]
  have hminY : (getBBox el).minY = (ls.foldl bboxStep el.shapeBBox).minY := by
    simp [getBBox, h1, h2]
  have hmaxX : (getBBox el).maxX = (ls.foldl bboxStep el.shapeBBox).maxX := by
    simp [getBBox, h1, h2]
  have hmaxY : (getBBox el).maxY = (ls.foldl bboxStep el.shapeBBox).maxY := by
    simp [getBBox, h1, h2]
  have hw : (getBBox el).width
      = (ls.foldl bboxStep el.shapeBBox).maxX - (ls.foldl bboxStep el.shapeBBox).minX := by
    simp [getBBox, h1, h2]
  have hh : (getBBox el).height
      = (ls.foldl bboxStep el.shapeBBox).maxY - (ls.foldl bboxStep el.shapeBBox).minY := by
    simp [getBBox, h1, h2]
  refine ⟨by rw [hw, hmaxX, hminX], by rw [hh, hmaxY, hminY], ?_, ?_, ?_, ?_, ?_, ?_, ?_⟩
  · intro b hb
    rcases List.mem_cons.mp hb with hbs | hbl
    · subst hbs
      refine ⟨?_, ?_, ?_, ?_, ?_, ?_⟩
      · rw [hx, foldl_bboxStep_x]
        exact foldl_min_le_init _ _
      · rw [hy, foldl_bboxStep_y]
        exact foldl_min_le_init _ _
      · rw [hminX, foldl_bboxStep_minX]
        exact foldl_min_le_init _ _
      · rw [hminY, foldl_bboxStep_minY]
        exact foldl_min_le_init _ _
      · rw [hmaxX, foldl_bboxStep_maxX]
        exact foldl_max_ge_init _ _
      · rw [hmaxY, foldl_bboxStep_maxY]
        exact foldl_max_ge_init _ _
    · obtain ⟨l, hl, rfl⟩ := List.mem_map.mp hbl
      refine ⟨?_, ?_, ?_, ?_, ?_, ?_⟩
      · rw [hx, foldl_bboxStep_x]
        exact foldl_min_le_mem _ _ (List.mem_map_of_mem _ hl) _
      · rw [hy, foldl_bboxStep_y]
        exact foldl_min_le_mem _ _ (List.mem_map_of_mem _ hl) _
      · rw [hminX, foldl_bboxStep_minX]
        exact foldl_min_le_mem _ _ (List.mem_map_of_mem _ hl) _
      · rw [hminY, foldl_bboxStep_minY]
        exact foldl_min_le_mem _ _ (List.mem_map_of_mem _ hl) _
      · rw [hmaxX, foldl_bboxStep_maxX]
        exact foldl_max_ge_mem _ _ (List.mem_map_of_mem _ hl) _
      · rw [hmaxY, foldl_bboxStep_maxY]
        exact foldl_max_ge_mem _ _ (List.mem_map_of_mem _ hl) _
  · rw [List.map_cons, List.map_map, hx, foldl_bboxStep_x]
    rcases foldl_min_attains (ls.map (fun l => l.bbox.x)) el.shapeBBox.x with h | h
    · rw [h]
      exact List.mem_cons_self _ _
    · exact List.mem_cons_of_mem _ (by simpa [Function.comp] using h)
  · rw [List.map_cons, List.map_map, hy, foldl_bboxStep_y]
    rcases foldl_min_attains (ls.map (fun l => l.bbox.y)) el.shapeBBox.y with h | h
    · rw [h]
      exact List.mem_cons_self _ _
    · exact List.mem_cons_of_mem _ (by simpa [Function.comp] using h)
  · rw [List.map_cons, List.map_map, hminX, foldl_bboxStep_minX]
    rcases foldl_min_attains (ls.map (fun l => l.bbox.minX)) el.shapeBBox.minX with h | h
    · rw [h]
      exact List.mem_cons_self _ _
    · exact List.mem_cons_of_mem _ (by simpa [Function.comp] using h)
  · rw [List.map_cons, List.map_map, hminY, foldl_bboxStep_minY]
    rcases foldl_min_attains (ls.map (fun l => l.bbox.minY)) el.shapeBBox.minY with h | h
    · rw [h]
      exact List.mem_cons_self _ _
    · exact List.mem_cons_of_mem _ (by simpa [Function.comp] using h)
  · rw [List.map_cons, List.map_map, hmaxX, foldl_bboxStep_maxX]
    rcases foldl_max_attains (ls.map (fun l => l.bbox.maxX)) el.shapeBBox.maxX with h | h
    · rw [h]
      exact List.mem_cons_self _ _
    · exact List.mem_cons_of_mem _ (by simpa [Function.comp] using h)
  · rw [List.map_cons, List.map_map, hmaxY, foldl_bboxStep_maxY]
    rcases foldl_max_attains (ls.map (fun l => l.bbox.maxY)) el.shapeBBox.maxY with h | h
    · rw [h]
      exact List.mem_cons_self _ _
    · exact List.mem_cons_of_mem _ (by simpa [Function.comp] using h)

/-- Witness for `getBBox_union` at a concrete element with a shape and two
labels. -/
theorem getBBox_union_witness :
    bboxEl.shape = some baseLeaf
    ∧ bboxEl.labelShape = some [labelA, labelB]
    ∧ (getBBox bboxEl).width = (getBBox bboxEl).maxX - (getBBox bboxEl).minX
    ∧ (getBBox bboxEl).minX
        ∈ (bboxEl.shapeBBox :: [labelA, labelB].map (fun l => l.bbox)).map BBoxM.minX :=
  ⟨rfl, rfl, (getBBox_union bboxEl baseLeaf [labelA, labelB] rfl rfl).1,
    (getBBox_union bboxEl baseLeaf [labelA, labelB] rfl rfl).2.2.2.2.2.1⟩

end G2

namespace G2

theorem keysOf_append (a b : List Effect) : keysOf (a ++ b) = keysOf a ++ keysOf b := by
  simp [keysOf, List.filterMap_append]

theorem syncKeys_aux (ctx : GeomCtx) (st : Option String) (state : String)
    (acfg : Option AttrMap) (hs : state ≠ "") : ∀ n : Nat,
    (∀ source : GNode, sizeOf source ≤ n → ∀ target idx r,
        syncShapeStyle ctx st source target state acfg idx = .ok r →
        keysOf r.2.2 = pathKeysNode source idx)
    ∧ (∀ cs : List GNode, sizeOf cs ≤ n → ∀ tl idx i r,
        syncChildren ctx st cs tl state acfg idx i = .ok r →
        keysOf r.2.2 = pathKeysChildren cs idx i) := by
  intro n
  induction n with
  | zero =>
    constructor
    · intro source hsz
      exact absurd hsz (by cases source <;> simp)
    · intro cs hsz
      exact absurd hsz (by cases cs <;> simp)
  | succ n ih =>
    constructor
    · intro source hsz target idx r h
      cases source with
      | leaf lname attrs =>
        simp only [syncShapeStyle] at h
        rw [if_pos hs] at h
        cases acfg with
        | some cfg =>
          simp only [] at h
          have hr := Except.ok.inj h
          subst hr
          simp [keysOf, pathKeysNode]
        | none =>
          simp only [] at h
          split at h
          · have hr := Except.ok.inj h
            subst hr
            simp [keysOf, pathKeysNode]
          · split at h
            · have hr := Except.ok.inj h
              subst hr
              simp [keysOf, pathKeysNode]
            · have hr := Except.ok.inj h
              subst hr
              simp [keysOf, pathKeysNode]
      | group gname cs =>
        cases target with
        | leaf tn ta =>
          simp only [syncShapeStyle] at h
          by_cases hcs : cs.isEmpty
          · rw [if_pos hcs] at h
            have hr : (GNode.group gname cs, GNode.leaf tn ta, ([] : List Effect)) = r := by
              simpa using h
            subst hr
            have hcs2 : cs = [] := by simpa [List.isEmpty_iff] using hcs
            subst hcs2
            simp [keysOf, pathKeysNode, pathKeysChildren]
          · rw [if_neg hcs] at h
            exact absurd h (by simp)
        | group tname tl =>
          simp only [syncShapeStyle] at h
          cases hsc : syncChildren ctx st cs tl state acfg idx 0 with
          | error e =>
            simp only [hsc] at h
            exact absurd h (by simp)
          | ok rc =>
            simp only [hsc] at h
            obtain ⟨cs2, tl2, effs⟩ := rc
            have hr : (GNode.group gname cs2, GNode.group tname tl2, effs) = r := by
              simpa using h
            subst hr
            have hszc : sizeOf cs ≤ n := by
              have := hsz
              simp only [GNode.group.sizeOf_spec] at this
              omega
            have := (ih.2 cs hszc tl idx 0 (cs2, tl2, effs) hsc)
            simpa [pathKeysNode] using this
    · intro cs hsz tl idx i r h
      cases cs with
      | nil =>
        simp only [syncChildren] at h
        have hr : (([] : List GNode), tl, ([] : List Effect)) = r := by simpa using h
        subst hr
        simp [keysOf, pathKeysChildren]
      | cons c rest =>
        simp only [syncChildren] at h
        cases hget : tl.get? i with
        | none =>
          simp only [hget] at h
          exact absurd h (by simp)
        | some tc =>
          simp only [hget] at h
          cases hsync : syncShapeStyle ctx st c tc state acfg (idx + i) with
          | error e =>
            simp only [hsync] at h
            exact absurd h (by simp)
          | ok rc1 =>
            simp only [hsync] at h
            obtain ⟨c2, tc2, e1⟩ := rc1
            cases hrest : syncChildren ctx st rest (tl.set i tc2) state acfg idx (i + 1) with
            | error e =>
              simp only [hrest] at h
              exact absurd h (by simp)
            | ok rc2 =>
              simp only [hrest] at h
              obtain ⟨rest2, tl2, e2⟩ := rc2
              have hr : (c2 :: rest2, tl2, e1 ++ e2) = r := by simpa using h
              subst hr
              have hszc : sizeOf c ≤ n := by
                have := hsz
                simp only [List.cons.sizeOf_spec] at this
                omega
              have hszr : sizeOf rest ≤ n := by
                have := hsz
                simp only [List.cons.sizeOf_spec] at this
                omega
              rw [keysOf_append]
              rw [(ih.1 c hszc tc (idx + i) (c2, tc2, e1) hsync)]
              rw [(ih.2 rest hszr (tl.set i tc2) idx (i + 1) (rest2, tl2, e2) hrest)]
              rfl

/-- Claim C3, counterexample: on the tree `group [group [leaf, leaf], leaf]`
one state sync keys the unnamed leaves 0, 1, 1 — the third leaf in flattened
order receives key 1 (its parent index 0 plus its sibling position 1), not the
flattened counter value 2 the claim predicts. -/
theorem syncShapeStyle_flat_key_counterexample :
    keysOf nestedOkRes.2.2 = [.byIndex 0, .byIndex 1, .byIndex 1]
    ∧ (claimFlatKeys nestedTree 0).1 = [.byIndex 0, .byIndex 1, .byIndex 2]
    ∧ ([StateKey.byIndex 0, .byIndex 1, .byIndex 1] : List StateKey)
        ≠ [.byIndex 0, .byIndex 1, .byIndex 2] :=
  ⟨rfl, rfl, by decide⟩

/-- Claim C3 (amended): during one `syncShapeStyle` pass, an unnamed leaf's
state-style lookup key is the recursion's entry index plus the leaf's position
among its siblings — the sum of the sibling positions along the path from the
sync root (`pathKeysNode`), not an index accumulated across the flattened
child-leaf order of the whole tree; a truthy declared name still takes
precedence. -/
theorem syncShapeStyle_keys_path_sum (ctx : GeomCtx) (st : Option String)
    (source target : GNode) (state : String) (acfg : Option AttrMap) (idx : Nat)
    (r : GNode × GNode × List Effect) (hs : state ≠ "")
    (h : syncShapeStyle ctx st source target state acfg idx = .ok r) :
    keysOf r.2.2 = pathKeysNode source idx :=
  (syncKeys_aux ctx st state acfg hs (sizeOf source)).1 source le_rfl target idx r h

/-- Witness for `syncShapeStyle_keys_path_sum` on the concrete nested tree. -/
theorem syncShapeStyle_keys_path_sum_witness :
    ("active" ≠ "") ∧ keysOf nestedOkRes.2.2 = pathKeysNode nestedTree 0 :=
  ⟨by decide,
    syncShapeStyle_keys_path_sum demoCtx (some "point") nestedTree nestedTree
      "active" none 0 nestedOkRes (by decide) (by rfl)⟩

end G2
